import Mathlib

/-!
Verification of the query execution and metrics materialization engine of the
justwatchcom/sql_exporter repository, as a shallow embedding in Lean 4.

Go machine floats are modelled by rationals (the claims under study concern
control flow and type dispatch, not rounding); Go's `strconv.ParseFloat` is a
parameter `pf : String → Option ℚ`; a database handle is a function from SQL
text to either a driver error or a list of row-scan results.  Prometheus
counter/gauge vectors keyed by label values are total functions from the key
to a count (counters) or to the last value set (gauges).
-/

/-- Go strings.HasPrefix on character lists: `listPfx pattern target`. -/
def listPfx : List Char → List Char → Bool
  | [], _ => true
  | _ :: _, [] => false
  | a :: as, b :: bs => a == b && listPfx as bs

/-- Go strings.Contains on character lists: `listContainsSub target pattern`. -/
def listContainsSub : List Char → List Char → Bool
  | _, [] => true
  | [], _ :: _ => false
  | a :: as, p :: ps => listPfx (p :: ps) (a :: as) || listContainsSub as (p :: ps)

/-- Go strings.HasPrefix. -/
def goHasPfx (s pre : String) : Bool := listPfx pre.data s.data

/-- Go strings.TrimPrefix. -/
def goTrimPfx (s pre : String) : String :=
  if goHasPfx s pre then String.mk (s.data.drop pre.data.length) else s

/-- Go strings.Contains. -/
def goContains (s sub : String) : Bool := listContainsSub s.data sub.data

/-- Increment of one entry of a Prometheus counter vector
(`vec.WithLabelValues(k...).Inc()`). -/
def bump {α : Type} [DecidableEq α] (f : α → Nat) (k : α) : α → Nat :=
  fun x => if x = k then f x + 1 else f x

/-- Point update of a keyed map (`vec.WithLabelValues(k...).Set(v)`, or a Go
map assignment `m[k] = v`). -/
def fset {α β : Type} [DecidableEq α] (f : α → Option β) (k : α) (v : β) : α → Option β :=
  fun x => if x = k then some v else f x

/-- A dynamically typed column value as handed over by the sql driver
(the `interface\x7b\x7d` values put into the row map by `rows.MapScan`). -/
inductive SqlValue where
  | vInt (n : Int)
  | vInt32 (n : Int)
  | vInt64 (n : Int)
  | vUInt (n : Nat)
  | vUInt32 (n : Nat)
  | vUInt64 (n : Nat)
  | vFloat32 (x : ℚ)
  | vFloat64 (x : ℚ)
  | vBytes (s : String)
  | vString (s : String)
  | vTime (t : Int)
  | vOther
deriving Repr, DecidableEq

/-- A scanned row: the `map[string]interface\x7b\x7d` built by `rows.MapScan`. -/
abbrev Row := List (String × SqlValue)

/-- The `connection` struct of config.go (the fields the claims depend on;
`conn *sqlx.DB` is modelled by the flag `hasHandle`, `tlsConfig *tls.Config`
by the flag `tlsConfigPresent`). -/
structure Conn where
  driver : String
  host : String
  database : String
  user : String
  url : String
  hasHandle : Bool
  tlsConfigPresent : Bool
deriving Repr, DecidableEq

/-- The `Query` struct of config.go. `desc` models the prometheus descriptor
pointer: `none` is a nil descriptor, `some ls` a descriptor whose variable
label names are `ls`. -/
structure Query where
  name : String
  jobName : String
  query : String
  labels : List String
  values : List String
  timestamp : String
  allowZeroRows : Bool
  desc : Option (List String)
deriving Repr, DecidableEq

/-- An immutable constant metric sample as produced by
`prometheus.NewConstMetric` (plus the optional wrapping timestamp). -/
structure Metric where
  value : ℚ
  labelValues : List String
  timestamp : Option Int
deriving Repr, DecidableEq

/-- The shared metric state: the two counter vectors keyed by `(sql_job,
query)`, the `sql_exporter_last_scrape_failed` gauge keyed by its label
values, and the per-(query, connection) sample cache `q.metrics[conn]`. -/
structure MState where
  queries : (String × String) → Nat
  failures : (String × String) → Nat
  gauge : List String → Option ℚ
  cache : (Query × Conn) → Option (List Metric)

/-- Key of the counter vectors for a query: `(q.jobName, q.Name)`. -/
def qkey (q : Query) : String × String := (q.jobName, q.name)

/-- Label values used for the failed-scrapes gauge in query.go:
`(conn.driver, conn.host, conn.database, conn.user, q.jobName, q.Name)`. -/
def fsLabels (conn : Conn) (q : Query) : List String :=
  [conn.driver, conn.host, conn.database, conn.user, q.jobName, q.name]

/-- The all-zero metric state at process start. -/
def mstate0 : MState :=
  { queries := fun _ => 0
    failures := fun _ => 0
    gauge := fun _ => none
    cache := fun _ => none }

/-- The value-coercion switch of `Query.updateMetric` (query.go lines
198-230): integer and float kinds pass through, byte strings and strings go
through `strconv.ParseFloat` (the parameter `pf`), every other dynamic type
is an error. -/
def coerceValue (pf : String → Option ℚ) : SqlValue → Except String ℚ
  | .vInt n => .ok n
  | .vInt32 n => .ok n
  | .vInt64 n => .ok n
  | .vUInt n => .ok n
  | .vUInt32 n => .ok n
  | .vUInt64 n => .ok n
  | .vFloat32 x => .ok x
  | .vFloat64 x => .ok x
  | .vBytes s =>
    match pf s with
    | some v => .ok v
    | none => .error "column must be type float"
  | .vString s =>
    match pf s with
    | some v => .ok v
    | none => .error "column must be type float"
  | .vTime _ => .error "column must be type float"
  | .vOther => .error "column must be type float"

/-- One step of the label loop of `Query.updateMetric` (query.go lines
241-264): the iterator label gets the iterator value, otherwise the row
column is read and must be a string or byte-string kind; an absent column
yields the empty label value. -/
def resolveLabel (res : Row) (il iv : String) (label : String) : Except String String :=
  if label = il ∧ iv ≠ "" then .ok iv
  else
    match res.lookup label with
    | some (.vString s) => .ok s
    | some (.vBytes s) => .ok s
    | some _ => .error "column must be type text (string)"
    | none => .ok ""

/-- The label loop of `Query.updateMetric`, resolving the declared label
columns in listing order and stopping at the first error. -/
def resolveLabels (res : Row) (il iv : String) : List String → Except String (List String)
  | [] => .ok []
  | l :: ls =>
    match resolveLabel res il iv l with
    | .error e => .error e
    | .ok v =>
      match resolveLabels res il iv ls with
      | .error e => .error e
      | .ok vs => .ok (v :: vs)

/-- Model of `prometheus.NewConstMetric`: fails on a nil descriptor or when
the number of label values differs from the descriptor's variable labels. -/
def newConstMetric (desc : Option (List String)) (value : ℚ) (lvs : List String) :
    Except String Metric :=
  match desc with
  | none => .error "nil descriptor"
  | some ls =>
    if lvs.length = ls.length then .ok ⟨value, lvs, none⟩
    else .error "inconsistent label cardinality"

/-- `Query.updateMetric` (query.go lines 196-293): coerce the value column,
build the label-value vector (declared labels in listing order, then the
fixed labels driver, host, database, user, col), construct the constant
metric, and wrap it with the row's timestamp column when configured. -/
def updateMetric (pf : String → Option ℚ) (q : Query) (conn : Conn) (res : Row)
    (valueName iv il : String) : Except String Metric :=
  match (match res.lookup valueName with
         | some v => coerceValue pf v
         | none => .ok 0) with
  | .error e => .error e
  | .ok value =>
    match resolveLabels res il iv q.labels with
    | .error e => .error e
    | .ok lvs =>
      let lvs := lvs ++ [conn.driver, conn.host, conn.database, conn.user, valueName]
      match newConstMetric q.desc value lvs with
      | .error e => .error e
      | .ok m =>
        if q.timestamp ≠ "" then
          match res.lookup q.timestamp with
          | some (.vTime t) => .ok { m with timestamp := some t }
          | _ => .ok m
        else .ok m

/-- `Query.updateMetrics` (query.go lines 166-193): with no configured value
columns return immediately with no metrics; otherwise run `updateMetric` for
each value column, skipping failures, and fail only when no value succeeded. -/
def updateMetrics (pf : String → Option ℚ) (q : Query) (conn : Conn) (res : Row)
    (iv il : String) : Except String (List Metric) :=
  if q.values.isEmpty then .ok []
  else
    let ms := q.values.foldl
      (fun acc vn =>
        match updateMetric pf q conn res vn iv il with
        | .ok m => acc ++ [m]
        | .error _ => acc) []
    if ms.isEmpty then .error "zero values found" else .ok ms

/-- The body of the row loop shared by `Query.Run` (query.go lines 46-63) and
`Query.RunIterator` (lines 115-132): a scan failure or an `updateMetrics`
failure sets the failed-scrapes gauge to 1 and skips the row; a success
appends the metrics, counts the row and sets the gauge to 0. -/
def scanRow (pf : String → Option ℚ) (q : Query) (conn : Conn) (iv il : String)
    (acc : MState × List Metric × Nat) (r : Except String Row) :
    MState × List Metric × Nat :=
  let (s, ms, u) := acc
  match r with
  | .error _ => ({ s with gauge := fset s.gauge (fsLabels conn q) 1 }, ms, u)
  | .ok res =>
    match updateMetrics pf q conn res iv il with
    | .error _ => ({ s with gauge := fset s.gauge (fsLabels conn q) 1 }, ms, u)
    | .ok m => ({ s with gauge := fset s.gauge (fsLabels conn q) 0 }, ms ++ m, u + 1)

/-- `Query.Run` (query.go lines 15-81).  `db` models `conn.conn.Queryx`: SQL
text to either a driver error or the row-scan results.  Returns the new
metric state, the function result, and the list of SQL texts executed. -/
def Query.run (pf : String → Option ℚ) (db : String → Except String (List (Except String Row)))
    (q : Query) (conn : Conn) (s : MState) :
    MState × Except String Unit × List String :=
  let s := { s with queries := bump s.queries (qkey q) }
  if q.desc.isNone then
    ({ s with failures := bump s.failures (qkey q) }, .error "metrics descriptor is nil", [])
  else if q.query = "" then
    ({ s with failures := bump s.failures (qkey q) }, .error "query is empty", [])
  else if conn.hasHandle = false then
    ({ s with failures := bump s.failures (qkey q) },
      .error "db connection not initialized (should not happen)", [])
  else
    match db q.query with
    | .error e =>
      ({ s with gauge := fset s.gauge (fsLabels conn q) 1,
                failures := bump s.failures (qkey q) }, .error e, [q.query])
    | .ok rows =>
      let r := rows.foldl (scanRow pf q conn "" "") (s, [], 0)
      let s1 := r.1
      let metrics := r.2.1
      let updated := r.2.2
      if updated < 1 then
        if q.allowZeroRows then
          ({ s1 with gauge := fset s1.gauge (fsLabels conn q) 0,
                     cache := fset s1.cache (q, conn) metrics }, .ok (), [q.query])
        else
          ({ s1 with gauge := fset s1.gauge (fsLabels conn q) 1,
                     failures := bump s1.failures (qkey q) },
            .error "zero rows returned", [q.query])
      else
        ({ s1 with cache := fset s1.cache (q, conn) metrics }, .ok (), [q.query])

/-- `Query.HasIterator` (query.go lines 155-157). -/
def Query.hasIterator (q : Query) (ph : String) : Bool := goContains q.query ph

/-- `Query.ReplaceIterator` (query.go lines 160-163): replace every
occurrence of the token `\x7b\x7b<placeholder>\x7d\x7d` by the iterator
value. -/
def Query.replaceIterator (q : Query) (ph iv : String) : String :=
  q.query.replace ("\x7b\x7b" ++ ph ++ "\x7d\x7d") iv

/-- The per-iterator-value loop of `Query.RunIterator` (query.go lines
106-133): run each substituted query, return on the first driver error
(setting the gauge and bumping the failure counter), otherwise accumulate
rows through `scanRow`. -/
def iterLoop (pf : String → Option ℚ) (db : String → Except String (List (Except String Row)))
    (q : Query) (conn : Conn) (ph il : String) :
    List String → MState → List Metric → Nat → List String →
    MState × Except String (List Metric × Nat) × List String
  | [], s, ms, u, ex => (s, .ok (ms, u), ex)
  | iv :: rest, s, ms, u, ex =>
    let sql := q.replaceIterator ph iv
    match db sql with
    | .error e =>
      ({ s with gauge := fset s.gauge (fsLabels conn q) 1,
                failures := bump s.failures (qkey q) }, .error e, ex ++ [sql])
    | .ok rows =>
      let r := rows.foldl (scanRow pf q conn iv il) (s, ms, u)
      iterLoop pf db q conn ph il rest r.1 r.2.1 r.2.2 (ex ++ [sql])

/-- `Query.RunIterator` (query.go lines 84-152): same guards as `Run`, then
the iterator loop; in the zero-row case with `allow_zero_rows` false it
returns an error without touching gauge, counter or cache. -/
def Query.runIterator (pf : String → Option ℚ)
    (db : String → Except String (List (Except String Row)))
    (q : Query) (conn : Conn) (ph : String) (ivs : List String) (il : String) (s : MState) :
    MState × Except String Unit × List String :=
  let s := { s with queries := bump s.queries (qkey q) }
  if q.desc.isNone then
    ({ s with failures := bump s.failures (qkey q) }, .error "metrics descriptor is nil", [])
  else if q.query = "" then
    ({ s with failures := bump s.failures (qkey q) }, .error "query is empty", [])
  else if conn.hasHandle = false then
    ({ s with failures := bump s.failures (qkey q) },
      .error "db connection not initialized (should not happen)", [])
  else
    match iterLoop pf db q conn ph il ivs s [] 0 [] with
    | (s1, .error e, ex) => (s1, .error e, ex)
    | (s1, .ok (ms, u), ex) =>
      if u < 1 then
        if q.allowZeroRows then
          ({ s1 with gauge := fset s1.gauge (fsLabels conn q) 0,
                     cache := fset s1.cache (q, conn) ms }, .ok (), ex)
        else (s1, .error "zero rows returned", ex)
      else ({ s1 with cache := fset s1.cache (q, conn) ms }, .ok (), ex)

/-- The per-query part of `Job.Init` (job.go lines 92-111): append the
iterator label to the declared labels when set, and build the metric
descriptor whose variable labels are the declared labels in listing order
followed by the fixed labels driver, host, database, user, col.  (Metric
name sanitization and help text do not bear on the claims and are left
out.) -/
def initQuery (iteratorLabel : String) (q : Query) : Query :=
  let labels := if iteratorLabel ≠ "" then q.labels ++ [iteratorLabel] else q.labels
  { q with labels := labels
           desc := some (labels ++ ["driver", "host", "database", "user", "col"]) }

/-- The per-query dispatch of `Job.runOnceConnection` (job.go lines 530-545):
a query runs through `RunIterator` exactly when the connection's iterator
value buffer is non-nil and the query contains the placeholder, and through
`Run` otherwise. -/
def runQueryOnConnection (pf : String → Option ℚ)
    (db : String → Except String (List (Except String Row)))
    (q : Query) (conn : Conn) (iteratorValues : Option (List String)) (ph il : String)
    (s : MState) : MState × Except String Unit × List String :=
  if iteratorValues.isSome && q.hasIterator ph then
    q.runIterator pf db conn ph (iteratorValues.getD []) il s
  else
    q.run pf db conn s

/-- `Job.markFailed` (job.go lines 551-555): set the failed-scrapes gauge to
1 for every query of the job on the given connection. -/
def markFailed (jobQueries : List Query) (conn : Conn) (s : MState) : MState :=
  jobQueries.foldl (fun s q => { s with gauge := fset s.gauge (fsLabels conn q) 1 }) s

/-- The connection-failure path of `Job.runOnceConnection` (job.go lines
482-489): mark every (query, connection) pair failed and increment the
query-failure counter with empty query name. -/
def connectFailStep (jobName : String) (jobQueries : List Query) (conn : Conn)
    (s : MState) : MState :=
  let s1 := markFailed jobQueries conn s
  { s1 with failures := bump s1.failures (jobName, "") }

/-- One observable event of the process lifetime that touches the counter
vectors: a query execution (plain or iterator-driven, through the dispatch of
`runOnceConnection`) or a connection failure. -/
inductive Event where
  | runQ (pf : String → Option ℚ) (db : String → Except String (List (Except String Row)))
      (q : Query) (conn : Conn) (ivs : Option (List String)) (ph il : String)
  | connFail (jobName : String) (jobQueries : List Query) (conn : Conn)

/-- Effect of one event on the metric state. -/
def stepEvent (s : MState) : Event → MState
  | .runQ pf db q conn ivs ph il => (runQueryOnConnection pf db q conn ivs ph il s).1
  | .connFail j qs c => connectFailStep j qs c s

/-- Metric state after a sequence of events starting from `s`. -/
def execEvents (s : MState) (es : List Event) : MState := es.foldl stepEvent s

/-- The driver/DSN normalization of `connection.connectClickHouse` (job.go
lines 913-928 of the current revision): the result is computed into local
variables, the connection record is not written. -/
structure ChNorm where
  driver : String
  dsn : String
deriving Repr, DecidableEq

/-- Normalization performed at the top of `connection.connectClickHouse`:
`clickhouse+tcp`, `clickhouse+http` and `clickhouse+https` lose the
`clickhouse+` tag from the DSN and connect with the `clickhouse` driver; a
bare `clickhouse` DSN without a `tcp://`, `http://` or `https://` scheme is
given the legacy `tcp://` scheme. -/
def connectClickHouseNormalize (c : Conn) : ChNorm :=
  if c.driver = "clickhouse+tcp" ∨ c.driver = "clickhouse+http" ∨ c.driver = "clickhouse+https" then
    ⟨"clickhouse", goTrimPfx c.url "clickhouse+"⟩
  else if c.driver = "clickhouse" then
    if ¬ (goHasPfx c.url "tcp://" || goHasPfx c.url "http://" || goHasPfx c.url "https://") then
      ⟨c.driver, "tcp://" ++ goTrimPfx c.url "clickhouse://"⟩
    else ⟨c.driver, c.url⟩
  else ⟨c.driver, c.url⟩

/-- One attempt of `connection.connectClickHouse` with its outcome: the
normalized driver and DSN are local variables, so a failing attempt hands
back the record unchanged and only a successful attempt stores the opened
handle (`c.conn = conn` in the caller `connection.connect`). -/
def connectClickHouseAttempt (c : Conn) (connectFails : Bool) : Conn × Except String ChNorm :=
  let n := connectClickHouseNormalize c
  if connectFails then (c, .error "failed to connect to ClickHouse")
  else ({ c with hasHandle := true }, .ok n)

/-- `GetLabelsForSQLGauges` (labels.go lines 17-27), with the process-wide
`redactedLabels` slice passed explicitly. -/
def GetLabelsForSQLGauges (redacted : List String) : List String :=
  ["driver", "host", "database", "user", "col"].filter (fun l => ¬ redacted.contains l)

/-- `GetLabelsForFailedScrapes` (labels.go lines 5-15). -/
def GetLabelsForFailedScrapes (redacted : List String) : List String :=
  ["driver", "host", "database", "user", "sql_job", "query"].filter
    (fun l => ¬ redacted.contains l)

/-- `AppendLabelValuesForSQLGauges` (labels.go lines 29-47): driver is always
appended, host, database and user only when not redacted, and the value
column name always. -/
def AppendLabelValuesForSQLGauges (redacted : List String) (labels : List String)
    (conn : Conn) (valueName : String) : List String :=
  let labels := labels ++ [conn.driver]
  let labels := if ¬ redacted.contains "host" then labels ++ [conn.host] else labels
  let labels := if ¬ redacted.contains "database" then labels ++ [conn.database] else labels
  let labels := if ¬ redacted.contains "user" then labels ++ [conn.user] else labels
  labels ++ [valueName]

/-- `FilteredLabelValuesForFailedScrapes` (labels.go lines 49-70). -/
def FilteredLabelValuesForFailedScrapes (redacted : List String) (conn : Conn)
    (q : Query) : List String :=
  let labels := ([] : List String) ++ [conn.driver]
  let labels := if ¬ redacted.contains "host" then labels ++ [conn.host] else labels
  let labels := if ¬ redacted.contains "database" then labels ++ [conn.database] else labels
  let labels := if ¬ redacted.contains "user" then labels ++ [conn.user] else labels
  labels ++ [q.jobName, q.name]

/-- Modelled from the spec: the code that populates the process-wide
`redactedLabels` slice is not among the sources; §4.7 of the specification
says the redact list "filters the fixed labels host, database, user" and
that driver and col are never redacted, so a valid redact list names only
those three fixed labels. -/
def ValidRedactList (redacted : List String) : Prop :=
  ∀ l ∈ redacted, l = "host" ∨ l = "database" ∨ l = "user"

/-- The replacement-list construction of `Read` (the current config source,
lines 81-95): for each regex match, derive the environment variable name by
stripping the template delimiters, uppercasing and trimming; when both the
name and its environment value are non-empty, append the placeholder and the
value — always two entries at a time.  `env` models `os.Getenv`,
`placeholders` the matches of the placeholder regex. -/
def buildReplacements (tmplStart tmplEnd : String) (env : String → String)
    (placeholders : List String) : List String :=
  placeholders.foldl
    (fun acc placeholder =>
      let name := (((placeholder.replace tmplStart "").replace tmplEnd "").toUpper).trim
      let value := env name
      if name ≠ "" ∧ value ≠ "" then acc ++ [placeholder, value] else acc) []

/-- `strings.NewReplacer(replacements...).Replace`, consuming the
(old, new) pairs of the replacement list. -/
def applyReplacements : String → List String → String
  | s, old :: new :: rest => applyReplacements (s.replace old new) rest
  | s, _ => s

/-- The placeholder-substitution stage of `Read` (config source lines
81-100): build the replacement list, fail when its length is odd, otherwise
hand the substituted text to the YAML parser. -/
def readProcessConfig (tmplStart tmplEnd : String) (env : String → String)
    (content : String) (placeholders : List String) : Except String String :=
  let replacements := buildReplacements tmplStart tmplEnd env placeholders
  if replacements.length % 2 = 1 then .error "uneven amount of replacement arguments"
  else .ok (applyReplacements content replacements)

/-- The `cronConfig` struct of the config source: the raw expression and the
parsed schedule (`none` = the nil `cron.Schedule`).  A parsed schedule is
identified by its defining string. -/
structure CronConfig where
  definition : String
  schedule : Option String
deriving Repr, DecidableEq

/-- The scheduling-relevant YAML fields of one job: `interval` and the
optional `cron_schedule` text. -/
structure JobYaml where
  name : String
  interval : Nat
  cronField : Option String
deriving Repr, DecidableEq

/-- `cronConfig.UnmarshalYAML` (config source): parse the expression with
`cron.ParseStandard` (the parameter `parseStandard`); a parse failure is a
YAML unmarshalling error, aborting configuration loading. -/
def cronConfigUnmarshalYAML (parseStandard : String → Option String) (s : String) :
    Except String CronConfig :=
  match parseStandard s with
  | none => .error ("invalid cron_schedule syntax for `" ++ s ++ "`")
  | some sched => .ok ⟨s, some sched⟩

/-- Unmarshalling of one job's schedule fields: with no `cron_schedule` key
the `cronConfig` keeps its zero value (nil schedule), otherwise
`cronConfig.UnmarshalYAML` runs. -/
def unmarshalJobSchedule (parseStandard : String → Option String) (jy : JobYaml) :
    Except String CronConfig :=
  match jy.cronField with
  | none => .ok ⟨"", none⟩
  | some s => cronConfigUnmarshalYAML parseStandard s

/-- How a constructed job is driven. -/
inductive ScheduleKind where
  | cron (sched : String)
  | interval (d : Nat)
deriving Repr, DecidableEq

/-- The dispatch of `NewExporter` (exporter.go lines 98-105): a job with a
non-nil parsed schedule is attached to the cron scheduler, any other job is
run periodically at its fixed interval. -/
def scheduleJob (cc : CronConfig) (interval : Nat) : ScheduleKind :=
  match cc.schedule with
  | some sched => .cron sched
  | none => .interval interval

/-- Configuration loading followed by the scheduling dispatch of
`NewExporter`: any job whose `cron_schedule` fails to parse aborts the whole
load (`Read` returns the unmarshalling error and `NewExporter` returns it in
turn), otherwise each job is assigned its schedule kind. -/
def readSchedules (parseStandard : String → Option String) :
    List JobYaml → Except String (List ScheduleKind)
  | [] => .ok []
  | jy :: rest =>
    match unmarshalJobSchedule parseStandard jy with
    | .error e => .error e
    | .ok cc =>
      match readSchedules parseStandard rest with
      | .error e => .error e
      | .ok ks => .ok (scheduleJob cc jy.interval :: ks)

/-- Concrete sample parse function for witnesses: accepts only `@daily`. -/
def parseDailyOnly : String → Option String :=
  fun s => if s = "@daily" then some "daily" else none

/-- A parse function rejecting everything, standing for `cron.ParseStandard`
applied to expressions it rejects. -/
def parseNone : String → Option String := fun _ => none

/-- Concrete sample connection for witnesses. -/
def conn0 : Conn :=
  { driver := "postgres", host := "h", database := "d", user := "u"
    url := "postgres://u@h/d", hasHandle := true, tlsConfigPresent := false }

/-- Concrete sample query (post-Init) for witnesses. -/
def q0 : Query :=
  { name := "q", jobName := "j", query := "SELECT 1 AS count"
    labels := ["l1"], values := ["count"], timestamp := ""
    allowZeroRows := false
    desc := some ["l1", "driver", "host", "database", "user", "col"] }

/-- Concrete sample parse-float function for witnesses. -/
def pf0 : String → Option ℚ := fun s => if s = "1.5" then some (3 / 2) else none

/-- Concrete clickhouse+https connection record for witnesses, mirroring the
regression test's connection string. -/
def chConn0 : Conn :=
  { driver := "clickhouse+https", host := "host:9000", database := "db", user := "u"
    url := "clickhouse+https://host:9000/db", hasHandle := false, tlsConfigPresent := false }

/-- Concrete sample query containing the iterator placeholder token. -/
def qIter : Query :=
  { name := "qi", jobName := "j", query := "SELECT \x7b\x7bK\x7d\x7d AS count"
    labels := ["k"], values := ["count"], timestamp := ""
    allowZeroRows := true
    desc := some ["k", "driver", "host", "database", "user", "col"] }

/-- A database handle that fails every query. -/
def dbErr0 : String → Except String (List (Except String Row)) :=
  fun _ => .error "connection refused"

/-- A database handle that returns zero rows for every query. -/
def dbEmpty0 : String → Except String (List (Except String Row)) :=
  fun _ => .ok []

/-- A database handle returning one row binding column count to 1 and column
l1 to the string a. -/
def dbOne0 : String → Except String (List (Except String Row)) :=
  fun _ => .ok [.ok [("count", .vInt 1), ("l1", .vString "a")]]

/-- The per-pair counter invariant restricted to non-empty query names. -/
def CounterInv (s : MState) : Prop :=
  ∀ k : String × String, k.2 ≠ "" → s.failures k ≤ s.queries k

/-- Whether an `Except` result is a success. -/
def exIsOk {ε α : Type} : Except ε α → Bool
  | .ok _ => true
  | .error _ => false

/-- The successful value of an `Except` result, if any. -/
def exToOption {ε α : Type} : Except ε α → Option α
  | .ok a => some a
  | .error _ => none

/-!  Helper lemmas. -/

theorem fset_ne {α β : Type} [DecidableEq α] (f : α → Option β) (k : α) (v : β)
    (x : α) (hx : x ≠ k) : fset f k v x = f x := by
  simp [fset, hx]

theorem fset_self {α β : Type} [DecidableEq α] (f : α → Option β) (k : α) (v : β) :
    fset f k v k = some v := by
  simp [fset]

theorem scanRow_fst_queries (pf : String → Option ℚ) (q : Query) (conn : Conn)
    (iv il : String) (acc : MState × List Metric × Nat) (r : Except String Row) :
    ((scanRow pf q conn iv il acc r).1).queries = (acc.1).queries := by
  rcases acc with ⟨s, ms, u⟩
  cases r with
  | error e => rfl
  | ok res =>
    simp only [scanRow]
    cases h : updateMetrics pf q conn res iv il <;> rfl

theorem scanRow_fst_failures (pf : String → Option ℚ) (q : Query) (conn : Conn)
    (iv il : String) (acc : MState × List Metric × Nat) (r : Except String Row) :
    ((scanRow pf q conn iv il acc r).1).failures = (acc.1).failures := by
  rcases acc with ⟨s, ms, u⟩
  cases r with
  | error e => rfl
  | ok res =>
    simp only [scanRow]
    cases h : updateMetrics pf q conn res iv il <;> rfl

theorem scanRow_fst_cache (pf : String → Option ℚ) (q : Query) (conn : Conn)
    (iv il : String) (acc : MState × List Metric × Nat) (r : Except String Row) :
    ((scanRow pf q conn iv il acc r).1).cache = (acc.1).cache := by
  rcases acc with ⟨s, ms, u⟩
  cases r with
  | error e => rfl
  | ok res =>
    simp only [scanRow]
    cases h : updateMetrics pf q conn res iv il <;> rfl

theorem foldl_scanRow_queries (pf : String → Option ℚ) (q : Query) (conn : Conn)
    (iv il : String) (rows : List (Except String Row)) :
    ∀ acc, ((rows.foldl (scanRow pf q conn iv il) acc).1).queries = (acc.1).queries := by
  induction rows with
  | nil => intro acc; rfl
  | cons r rs ih =>
    intro acc
    rw [List.foldl_cons, ih, scanRow_fst_queries]

theorem foldl_scanRow_failures (pf : String → Option ℚ) (q : Query) (conn : Conn)
    (iv il : String) (rows : List (Except String Row)) :
    ∀ acc, ((rows.foldl (scanRow pf q conn iv il) acc).1).failures = (acc.1).failures := by
  induction rows with
  | nil => intro acc; rfl
  | cons r rs ih =>
    intro acc
    rw [List.foldl_cons, ih, scanRow_fst_failures]

theorem foldl_scanRow_cache (pf : String → Option ℚ) (q : Query) (conn : Conn)
    (iv il : String) (rows : List (Except String Row)) :
    ∀ acc, ((rows.foldl (scanRow pf q conn iv il) acc).1).cache = (acc.1).cache := by
  induction rows with
  | nil => intro acc; rfl
  | cons r rs ih =>
    intro acc
    rw [List.foldl_cons, ih, scanRow_fst_cache]

/-- C10: the placeholder-replacement list built by `Read` always has even
length (entries are appended in pairs), so the error branch returning
"uneven amount of replacement arguments" is unreachable and the substitution
stage of `Read` never fails with that error. -/
theorem c10_replacements_even (tmplStart tmplEnd : String) (env : String → String)
    (placeholders : List String) (content : String) :
    (buildReplacements tmplStart tmplEnd env placeholders).length % 2 = 0 ∧
    readProcessConfig tmplStart tmplEnd env content placeholders =
      .ok (applyReplacements content (buildReplacements tmplStart tmplEnd env placeholders)) := by
  have hgen : ∀ (phs : List String) (acc : List String),
      (phs.foldl (fun acc placeholder =>
        let name := (((placeholder.replace tmplStart "").replace tmplEnd "").toUpper).trim
        let value := env name
        if name ≠ "" ∧ value ≠ "" then acc ++ [placeholder, value] else acc) acc).length % 2
      = acc.length % 2 := by
    intro phs
    induction phs with
    | nil => intro acc; rfl
    | cons a l ih =>
      intro acc
      rw [List.foldl_cons, ih]
      dsimp only
      split
      · simp only [List.length_append, List.length_cons, List.length_nil]
        omega
      · rfl
  have heven : (buildReplacements tmplStart tmplEnd env placeholders).length % 2 = 0 := by
    unfold buildReplacements
    simpa using hgen placeholders []
  refine ⟨heven, ?_⟩
  unfold readProcessConfig
  rw [if_neg]
  omega

theorem not_mem_of_validRedact (r : List String) (hv : ValidRedactList r) (x : String)
    (h1 : x ≠ "host") (h2 : x ≠ "database") (h3 : x ≠ "user") : x ∉ r := by
  intro hm
  rcases hv x hm with h | h | h
  · exact h1 h
  · exact h2 h
  · exact h3 h

/-- C9: for every valid redact list the fixed labels host, database and user,
when listed, are removed both from the gauge descriptor's fixed-label tail
and from the failure gauge's label set, driver and col (and the failure
gauge's sql_job and query) are never removed, and the number of fixed label
values appended to a sample equals the number of fixed label names remaining
in the descriptor. -/
theorem c9_redaction (redacted : List String) (hv : ValidRedactList redacted)
    (conn : Conn) (valueName : String) (q : Query) :
    GetLabelsForSQLGauges redacted =
      "driver" :: ((["host", "database", "user"].filter
        (fun l => !(redacted.contains l))) ++ ["col"]) ∧
    GetLabelsForFailedScrapes redacted =
      "driver" :: ((["host", "database", "user"].filter
        (fun l => !(redacted.contains l))) ++ ["sql_job", "query"]) ∧
    (∀ l ∈ redacted, l ∉ GetLabelsForSQLGauges redacted) ∧
    (∀ l ∈ redacted, l ∉ GetLabelsForFailedScrapes redacted) ∧
    (AppendLabelValuesForSQLGauges redacted [] conn valueName).length =
      (GetLabelsForSQLGauges redacted).length ∧
    (FilteredLabelValuesForFailedScrapes redacted conn q).length =
      (GetLabelsForFailedScrapes redacted).length := by
  have hdriver := not_mem_of_validRedact redacted hv "driver" (by decide) (by decide) (by decide)
  have hcol := not_mem_of_validRedact redacted hv "col" (by decide) (by decide) (by decide)
  have hsj := not_mem_of_validRedact redacted hv "sql_job" (by decide) (by decide) (by decide)
  have hq := not_mem_of_validRedact redacted hv "query" (by decide) (by decide) (by decide)
  refine ⟨?_, ?_, ?_, ?_, ?_, ?_⟩
  · by_cases hh : "host" ∈ redacted <;>
      by_cases hd : "database" ∈ redacted <;>
        by_cases hu : "user" ∈ redacted <;>
          simp [GetLabelsForSQLGauges, List.filter, hh, hd, hu, hdriver, hcol]
  · by_cases hh : "host" ∈ redacted <;>
      by_cases hd : "database" ∈ redacted <;>
        by_cases hu : "user" ∈ redacted <;>
          simp [GetLabelsForFailedScrapes, List.filter, hh, hd, hu, hdriver, hsj, hq]
  · intro l hl
    simp [GetLabelsForSQLGauges, List.mem_filter, hl]
  · intro l hl
    simp [GetLabelsForFailedScrapes, List.mem_filter, hl]
  · by_cases hh : "host" ∈ redacted <;>
      by_cases hd : "database" ∈ redacted <;>
        by_cases hu : "user" ∈ redacted <;>
          simp [AppendLabelValuesForSQLGauges, GetLabelsForSQLGauges, List.filter,
            hh, hd, hu, hdriver, hcol]
  · by_cases hh : "host" ∈ redacted <;>
      by_cases hd : "database" ∈ redacted <;>
        by_cases hu : "user" ∈ redacted <;>
          simp [FilteredLabelValuesForFailedScrapes, GetLabelsForFailedScrapes, List.filter,
            hh, hd, hu, hdriver, hsj, hq]

/-- Witness for C9: the redact list naming host removes host and keeps
driver, database, user, col, with matching sample lengths. -/
theorem c9_redaction_witness :
    GetLabelsForSQLGauges ["host"] = ["driver", "database", "user", "col"] ∧
    (AppendLabelValuesForSQLGauges ["host"] [] conn0 "count").length =
      (GetLabelsForSQLGauges ["host"]).length := by
  have h := c9_redaction ["host"]
    (fun l hl => by
      simp only [List.mem_singleton] at hl
      subst hl
      exact Or.inl rfl)
    conn0 "count" q0
  refine ⟨?_, h.2.2.2.2.1⟩
  rw [h.1]
  rfl

/-- Counterexample for C8: a job whose cron_schedule expression fails to
parse makes configuration loading return the unmarshalling error, so the job
is not attached to the cron scheduler and the fixed interval does not govern
its scheduling either — no schedule list is produced at all. -/
theorem c8_counterexample :
    readSchedules parseNone [⟨"j", 60, some "not a cron"⟩] =
      .error "invalid cron_schedule syntax for `not a cron`" ∧
    exIsOk (readSchedules parseNone [⟨"j", 60, some "not a cron"⟩]) = false := by
  exact ⟨rfl, rfl⟩

/-- C8 amended: whenever configuration loading succeeds, a job is attached
to the cron scheduler iff its cron_schedule field is present (in which case
the expression parsed and cron takes precedence over any interval), and a
job without a cron_schedule field is governed by the fixed interval; a
present-but-invalid cron expression instead aborts configuration loading,
with no fallback to the interval. -/
theorem c8_cron_schedules (parse : String → Option String) :
    ∀ (jobs : List JobYaml) (ks : List ScheduleKind),
      readSchedules parse jobs = .ok ks →
      ks.length = jobs.length ∧
      ∀ i (hi : i < jobs.length) (hk : i < ks.length),
        (match (jobs.get ⟨i, hi⟩).cronField with
         | some s => ∃ sched, parse s = some sched ∧
             ks.get ⟨i, hk⟩ = ScheduleKind.cron sched
         | none => ks.get ⟨i, hk⟩ = ScheduleKind.interval (jobs.get ⟨i, hi⟩).interval) := by
  intro jobs
  induction jobs with
  | nil =>
    intro ks h
    simp only [readSchedules] at h
    cases h
    exact ⟨rfl, fun i hi => absurd hi (by simp)⟩
  | cons jy rest ih =>
    intro ks h
    simp only [readSchedules] at h
    rcases hcc : unmarshalJobSchedule parse jy with e | cc
    · rw [hcc] at h; cases h
    rw [hcc] at h
    rcases hrest : readSchedules parse rest with e | ks'
    · rw [hrest] at h; cases h
    rw [hrest] at h
    cases h
    obtain ⟨hlen, htail⟩ := ih ks' hrest
    constructor
    · simp [hlen]
    · intro i hi hk
      cases i with
      | zero =>
        simp only [List.get]
        rcases hcf : jy.cronField with - | s
        · simp only [unmarshalJobSchedule, hcf] at hcc
          cases hcc
          simp [scheduleJob]
        · simp only [unmarshalJobSchedule, hcf, cronConfigUnmarshalYAML] at hcc
          rcases hp : parse s with - | sched
          · rw [hp] at hcc; cases hcc
          · rw [hp] at hcc
            cases hcc
            exact ⟨sched, hp, by simp [scheduleJob]⟩
      | succ n =>
        simp only [List.length_cons] at hi hk
        simp only [List.get]
        exact htail n (by omega) (by omega)

/-- Witness for C8 amended: one job with a parsing cron expression (and a
non-zero interval, showing cron precedence) and one interval-only job. -/
theorem c8_cron_schedules_witness :
    readSchedules parseDailyOnly [⟨"a", 30, some "@daily"⟩, ⟨"b", 60, none⟩] =
      .ok [ScheduleKind.cron "daily", ScheduleKind.interval 60] ∧
    ([ScheduleKind.cron "daily", ScheduleKind.interval 60] : List ScheduleKind).length =
      ([⟨"a", 30, some "@daily"⟩, ⟨"b", 60, none⟩] : List JobYaml).length := by
  refine ⟨rfl, ?_⟩
  exact (c8_cron_schedules parseDailyOnly [⟨"a", 30, some "@daily"⟩, ⟨"b", 60, none⟩]
    [ScheduleKind.cron "daily", ScheduleKind.interval 60] rfl).1

theorem run_characterization (pf : String → Option ℚ)
    (db : String → Except String (List (Except String Row))) (q : Query) (conn : Conn)
    (s : MState) :
    ((q.run pf db conn s).2.1 = .ok () ∧
      ∃ ms, (q.run pf db conn s).1.cache = fset s.cache (q, conn) ms) ∨
    (exIsOk (q.run pf db conn s).2.1 = false ∧ (q.run pf db conn s).1.cache = s.cache) := by
  unfold Query.run
  split
  · right; exact ⟨rfl, rfl⟩
  split
  · right; exact ⟨rfl, rfl⟩
  split
  · right; exact ⟨rfl, rfl⟩
  rcases hdb : db q.query with e | rows
  · right; exact ⟨rfl, rfl⟩
  dsimp only
  by_cases hu :
      (List.foldl (scanRow pf q conn "" "")
        ({ s with queries := bump s.queries (qkey q) }, ([] : List Metric), 0) rows).2.2 < 1
  · rw [if_pos hu]
    by_cases ha : q.allowZeroRows = true
    · rw [if_pos ha]
      left
      refine ⟨rfl, ⟨(List.foldl (scanRow pf q conn "" "")
        ({ s with queries := bump s.queries (qkey q) }, ([] : List Metric), 0) rows).2.1, ?_⟩⟩
      rw [foldl_scanRow_cache]
    · rw [if_neg ha]
      right
      refine ⟨rfl, ?_⟩
      show (List.foldl (scanRow pf q conn "" "") _ rows).1.cache = s.cache
      rw [foldl_scanRow_cache]
  · rw [if_neg hu]
    left
    refine ⟨rfl, ⟨(List.foldl (scanRow pf q conn "" "")
      ({ s with queries := bump s.queries (qkey q) }, ([] : List Metric), 0) rows).2.1, ?_⟩⟩
    rw [foldl_scanRow_cache]

theorem run_err_of_db_err (pf : String → Option ℚ)
    (db : String → Except String (List (Except String Row))) (q : Query) (conn : Conn)
    (s : MState) (e : String) (h : db q.query = .error e) :
    exIsOk (q.run pf db conn s).2.1 = false := by
  unfold Query.run
  split
  · rfl
  split
  · rfl
  split
  · rfl
  rw [h]
  rfl

theorem run_err_of_zero_rows (pf : String → Option ℚ)
    (db : String → Except String (List (Except String Row))) (q : Query) (conn : Conn)
    (s : MState) (h : db q.query = .ok []) (ha : q.allowZeroRows = false) :
    exIsOk (q.run pf db conn s).2.1 = false := by
  unfold Query.run
  split
  · rfl
  split
  · rfl
  split
  · rfl
  rw [h]
  dsimp only [List.foldl]
  rw [if_pos Nat.zero_lt_one, if_neg (by simp [ha])]
  rfl

/-- C1: if an execution of a query on a connection fails — a driver error
from executing the SQL, or zero rows with allow_zero_rows false — then
`Query.Run` returns an error and the cached sample vector for the (query,
connection) pair is exactly as before the execution; the cache entry is
replaced (by a `q.metrics[conn] = metrics` write) only by an execution that
reaches the cache-update step, i.e. one that returns success, and no other
cache entry is ever touched. -/
theorem c1_run_cache_on_failure (pf : String → Option ℚ)
    (db : String → Except String (List (Except String Row))) (q : Query) (conn : Conn)
    (s : MState) :
    (∀ e, db q.query = .error e →
      exIsOk (q.run pf db conn s).2.1 = false ∧ (q.run pf db conn s).1.cache = s.cache) ∧
    (db q.query = .ok [] → q.allowZeroRows = false →
      exIsOk (q.run pf db conn s).2.1 = false ∧ (q.run pf db conn s).1.cache = s.cache) ∧
    (exIsOk (q.run pf db conn s).2.1 = false → (q.run pf db conn s).1.cache = s.cache) ∧
    ((q.run pf db conn s).2.1 = .ok () →
      ∃ ms, (q.run pf db conn s).1.cache = fset s.cache (q, conn) ms) ∧
    (∀ k, k ≠ (q, conn) → (q.run pf db conn s).1.cache k = s.cache k) := by
  have hchar := run_characterization pf db q conn s
  have hfail : exIsOk (q.run pf db conn s).2.1 = false →
      (q.run pf db conn s).1.cache = s.cache := by
    intro herr
    rcases hchar with ⟨hok, -⟩ | ⟨-, hc⟩
    · rw [hok] at herr; cases herr
    · exact hc
  refine ⟨?_, ?_, hfail, ?_, ?_⟩
  · intro e he
    have herr := run_err_of_db_err pf db q conn s e he
    exact ⟨herr, hfail herr⟩
  · intro he ha
    have herr := run_err_of_zero_rows pf db q conn s he ha
    exact ⟨herr, hfail herr⟩
  · intro hok
    rcases hchar with ⟨-, hex⟩ | ⟨hbad, -⟩
    · exact hex
    · rw [hok] at hbad; cases hbad
  · intro k hk
    rcases hchar with ⟨-, ms, hc⟩ | ⟨-, hc⟩
    · rw [hc, fset_ne _ _ _ _ hk]
    · rw [hc]

/-- Witness for C1: a failing driver leaves the cache exactly as it was. -/
theorem c1_run_cache_on_failure_witness :
    exIsOk (Query.run pf0 dbErr0 q0 conn0 mstate0).2.1 = false ∧
    (Query.run pf0 dbErr0 q0 conn0 mstate0).1.cache = mstate0.cache :=
  (c1_run_cache_on_failure pf0 dbErr0 q0 conn0 mstate0).1 "connection refused" rfl

/-- C4: on a zero-row execution of `Query.Run`, with allow_zero_rows false
the failure gauge for (driver, host, database, user, job, query) is set to
1, the failure counter is incremented, and `Run` returns the zero-rows error
without updating the cache; with allow_zero_rows true the gauge is set to 0,
`Run` succeeds, and the cache entry for the (query, connection) pair becomes
the empty sample vector. -/
theorem c4_run_zero_rows (pf : String → Option ℚ)
    (db : String → Except String (List (Except String Row))) (q : Query) (conn : Conn)
    (s : MState) (hdesc : q.desc.isNone = false) (hq : ¬ q.query = "")
    (hh : conn.hasHandle = true) (hdb : db q.query = .ok []) :
    (q.allowZeroRows = false →
      (q.run pf db conn s).2.1 = .error "zero rows returned" ∧
      (q.run pf db conn s).1.gauge (fsLabels conn q) = some 1 ∧
      (q.run pf db conn s).1.failures (qkey q) = s.failures (qkey q) + 1 ∧
      (q.run pf db conn s).1.queries (qkey q) = s.queries (qkey q) + 1 ∧
      (q.run pf db conn s).1.cache = s.cache) ∧
    (q.allowZeroRows = true →
      (q.run pf db conn s).2.1 = .ok () ∧
      (q.run pf db conn s).1.gauge (fsLabels conn q) = some 0 ∧
      (q.run pf db conn s).1.cache (q, conn) = some [] ∧
      (q.run pf db conn s).1.queries (qkey q) = s.queries (qkey q) + 1) := by
  unfold Query.run
  rw [if_neg (by simp [hdesc]), if_neg (by simpa using hq), if_neg (by simp [hh]), hdb]
  dsimp only [List.foldl]
  rw [if_pos Nat.zero_lt_one]
  constructor
  · intro ha
    rw [if_neg (by simp [ha])]
    refine ⟨rfl, ?_, ?_, ?_, rfl⟩
    · exact fset_self _ _ _
    · simp [bump]
    · simp [bump]
  · intro ha
    rw [if_pos ha]
    refine ⟨rfl, ?_, ?_, ?_⟩
    · exact fset_self _ _ _
    · exact fset_self _ _ _
    · simp [bump]

/-- Witness for C4: a zero-row result with allow_zero_rows false marks the
gauge, bumps the failure counter and leaves the cache empty. -/
theorem c4_run_zero_rows_witness :
    (Query.run pf0 dbEmpty0 q0 conn0 mstate0).2.1 = .error "zero rows returned" ∧
    (Query.run pf0 dbEmpty0 q0 conn0 mstate0).1.gauge (fsLabels conn0 q0) = some 1 ∧
    (Query.run pf0 dbEmpty0 q0 conn0 mstate0).1.failures (qkey q0) =
      mstate0.failures (qkey q0) + 1 ∧
    (Query.run pf0 dbEmpty0 q0 conn0 mstate0).1.queries (qkey q0) =
      mstate0.queries (qkey q0) + 1 ∧
    (Query.run pf0 dbEmpty0 q0 conn0 mstate0).1.cache = mstate0.cache :=
  (c4_run_zero_rows pf0 dbEmpty0 q0 conn0 mstate0 rfl (by decide) rfl rfl).1 rfl

theorem resolveLabels_length (res : Row) (il iv : String) :
    ∀ (ls : List String) (vs : List String),
      resolveLabels res il iv ls = .ok vs → vs.length = ls.length := by
  intro ls
  induction ls with
  | nil =>
    intro vs h
    cases h
    rfl
  | cons l ls ih =>
    intro vs h
    unfold resolveLabels at h
    rcases h1 : resolveLabel res il iv l with e | v
    · rw [h1] at h; cases h
    rw [h1] at h
    rcases h2 : resolveLabels res il iv ls with e | vs'
    · rw [h2] at h; cases h
    rw [h2] at h
    cases h
    simp [ih vs' h2]

theorem resolveLabels_get (res : Row) (il iv : String) :
    ∀ (ls : List String) (vs : List String),
      resolveLabels res il iv ls = .ok vs →
      ∀ (i : Nat) (l : String), ls[i]? = some l →
        ∃ v, vs[i]? = some v ∧ resolveLabel res il iv l = .ok v := by
  intro ls
  induction ls with
  | nil =>
    intro vs h i l hl
    simp at hl
  | cons a as ih =>
    intro vs h i l hl
    unfold resolveLabels at h
    rcases h1 : resolveLabel res il iv a with e | v
    · rw [h1] at h; cases h
    rw [h1] at h
    rcases h2 : resolveLabels res il iv as with e | vs'
    · rw [h2] at h; cases h
    rw [h2] at h
    cases h
    cases i with
    | zero =>
      simp at hl
      subst hl
      exact ⟨v, by simp, h1⟩
    | succ n =>
      simp only [List.getElem?_cons_succ] at hl ⊢
      exact ih vs' h2 n l hl

theorem updateMetric_ok_shape (pf : String → Option ℚ) (q : Query) (conn : Conn)
    (res : Row) (vn iv il : String) (m : Metric)
    (h : updateMetric pf q conn res vn iv il = .ok m) :
    ∃ lvs descLs, resolveLabels res il iv q.labels = .ok lvs ∧
      q.desc = some descLs ∧
      m.labelValues = lvs ++ [conn.driver, conn.host, conn.database, conn.user, vn] ∧
      m.labelValues.length = descLs.length ∧
      (match res.lookup vn with
       | some v => coerceValue pf v = .ok m.value
       | none => m.value = 0) := by
  unfold updateMetric at h
  rcases hval : (match res.lookup vn with
      | some v => coerceValue pf v
      | none => Except.ok 0) with e | value
  · rw [hval] at h; cases h
  rw [hval] at h
  rcases hres : resolveLabels res il iv q.labels with e | lvs
  · rw [hres] at h; cases h
  rw [hres] at h
  dsimp only at h
  unfold newConstMetric at h
  rcases hdesc : q.desc with - | descLs
  · rw [hdesc] at h; cases h
  rw [hdesc] at h
  dsimp only at h
  by_cases hlen : (lvs ++ [conn.driver, conn.host, conn.database, conn.user, vn]).length
      = descLs.length
  · rw [if_pos hlen] at h
    dsimp only at h
    have hm : m.labelValues = lvs ++ [conn.driver, conn.host, conn.database, conn.user, vn]
        ∧ m.value = value := by
      by_cases hts : q.timestamp ≠ ""
      · rw [if_pos hts] at h
        rcases hlk : res.lookup q.timestamp with - | tv
        · rw [hlk] at h
          cases h
          exact ⟨rfl, rfl⟩
        · rw [hlk] at h
          cases tv <;> (cases h; exact ⟨rfl, rfl⟩)
      · rw [if_neg hts] at h
        cases h
        exact ⟨rfl, rfl⟩
    refine ⟨lvs, descLs, rfl, rfl, hm.1, ?_, ?_⟩
    · rw [hm.1]; exact hlen
    · rcases hlk2 : res.lookup vn with - | v
      · rw [hlk2] at hval
        dsimp only at hval ⊢
        cases hval
        exact hm.2
      · rw [hlk2] at hval
        dsimp only at hval ⊢
        rw [hval, hm.2]
  · rw [if_neg hlen] at h
    cases h

theorem foldl_collect_eq_filterMap (f : String → Except String Metric) :
    ∀ (vals : List String) (acc : List Metric),
      vals.foldl (fun acc vn =>
        match f vn with
        | .ok m => acc ++ [m]
        | .error _ => acc) acc
      = acc ++ vals.filterMap (fun vn => exToOption (f vn)) := by
  intro vals
  induction vals with
  | nil => intro acc; simp
  | cons v vs ih =>
    intro acc
    rcases hf : f v with e | m
    · simp only [List.foldl_cons, List.filterMap_cons, hf, exToOption]
      simpa [exToOption] using ih acc
    · simp only [List.foldl_cons, List.filterMap_cons, hf, exToOption]
      have h2 := ih (acc ++ [m])
      simp only [exToOption] at h2
      rw [h2]
      simp

/-- C5: `updateMetric` coerces the raw value of a configured value column to
a float as follows — integer kinds (int, int32, int64, uint, uint32, uint64)
and float kinds (float32, float64) pass through, byte-string and string
kinds are parsed as floats, any other kind or a failed parse yields an error
so that value column is skipped by `updateMetrics` (the others still emit),
and a value column absent from the row map still emits a sample with value
0. -/
theorem c5_value_coercion (pf : String → Option ℚ) (q : Query) (conn : Conn)
    (res : Row) (vn iv il : String) :
    (∀ n : Int, coerceValue pf (.vInt n) = .ok n ∧ coerceValue pf (.vInt32 n) = .ok n ∧
      coerceValue pf (.vInt64 n) = .ok n) ∧
    (∀ n : Nat, coerceValue pf (.vUInt n) = .ok n ∧ coerceValue pf (.vUInt32 n) = .ok n ∧
      coerceValue pf (.vUInt64 n) = .ok n) ∧
    (∀ x : ℚ, coerceValue pf (.vFloat32 x) = .ok x ∧ coerceValue pf (.vFloat64 x) = .ok x) ∧
    (∀ str, coerceValue pf (.vBytes str) = (match pf str with
        | some v => .ok v
        | none => .error "column must be type float") ∧
      coerceValue pf (.vString str) = (match pf str with
        | some v => .ok v
        | none => .error "column must be type float")) ∧
    (∀ t, exIsOk (coerceValue pf (.vTime t)) = false) ∧
    (exIsOk (coerceValue pf .vOther) = false) ∧
    (∀ v, res.lookup vn = some v → exIsOk (coerceValue pf v) = false →
      exIsOk (updateMetric pf q conn res vn iv il) = false) ∧
    (res.lookup vn = none → ∀ m, updateMetric pf q conn res vn iv il = .ok m → m.value = 0) ∧
    (res.lookup vn = none →
      ∀ lvs descLs, resolveLabels res il iv q.labels = .ok lvs → q.desc = some descLs →
        (lvs ++ [conn.driver, conn.host, conn.database, conn.user, vn]).length = descLs.length →
        ∃ m, updateMetric pf q conn res vn iv il = .ok m ∧ m.value = 0) ∧
    (q.values.isEmpty = false →
      q.values.filterMap (fun v => exToOption (updateMetric pf q conn res v iv il)) ≠ [] →
      updateMetrics pf q conn res iv il =
        .ok (q.values.filterMap (fun v => exToOption (updateMetric pf q conn res v iv il)))) := by
  refine ⟨fun n => ⟨rfl, rfl, rfl⟩, fun n => ⟨rfl, rfl, rfl⟩, fun x => ⟨rfl, rfl⟩,
    fun str => ⟨rfl, rfl⟩, fun t => rfl, rfl, ?_, ?_, ?_, ?_⟩
  · intro v hlk herr
    unfold updateMetric
    rw [hlk]
    dsimp only
    rcases hco : coerceValue pf v with e | val
    · rfl
    · rw [hco] at herr
      simp [exIsOk] at herr
  · intro hlk m hok
    obtain ⟨lvs, descLs, -, -, -, -, hv⟩ := updateMetric_ok_shape pf q conn res vn iv il m hok
    rw [hlk] at hv
    exact hv
  · intro hlk lvs descLs hres hdesc hlen
    unfold updateMetric
    rw [hlk]
    dsimp only
    rw [hres]
    dsimp only
    unfold newConstMetric
    rw [hdesc]
    dsimp only
    rw [if_pos hlen]
    dsimp only
    by_cases hts : q.timestamp ≠ ""
    · rw [if_pos hts]
      rcases hlkt : res.lookup q.timestamp with - | tv
      · exact ⟨_, rfl, rfl⟩
      · cases tv <;> exact ⟨_, rfl, rfl⟩
    · rw [if_neg hts]
      exact ⟨_, rfl, rfl⟩
  · intro hne hfm
    unfold updateMetrics
    rw [if_neg (by simp [hne])]
    dsimp only
    rw [foldl_collect_eq_filterMap (fun v => updateMetric pf q conn res v iv il) q.values []]
    rw [List.nil_append]
    rw [if_neg (by simpa [List.isEmpty_iff] using hfm)]

/-- Witness for C5: a row without the value column still yields a sample
with value 0. -/
theorem c5_value_coercion_witness :
    ∃ m, updateMetric pf0 q0 conn0 [("l1", SqlValue.vString "a")] "count" "" "" = .ok m ∧
      m.value = 0 := by
  have h := c5_value_coercion pf0 q0 conn0 [("l1", SqlValue.vString "a")] "count" "" ""
  exact h.2.2.2.2.2.2.2.2.1 rfl ["a"] ["l1", "driver", "host", "database", "user", "col"]
    rfl rfl rfl

/-- C3: after `Job.Init`, the metric descriptor's variable label names are
exactly the declared label columns in listing order (with the iterator label
appended when configured) followed by the five fixed labels driver, host,
database, user, col; every sample built by `updateMetric` supplies its label
values in that same order, so its label-value vector length equals the
descriptor's variable-label count, namely the number of declared labels plus
five (no fixed label is elided on this code path). -/
theorem c3_descriptor_label_order (il0 : String) (q : Query) :
    ((initQuery il0 q).desc =
      some ((initQuery il0 q).labels ++ ["driver", "host", "database", "user", "col"])) ∧
    (∀ ls, (initQuery il0 q).desc = some ls →
      ls.length = (initQuery il0 q).labels.length + 5) ∧
    (∀ (pf : String → Option ℚ) (conn : Conn) (res : Row) (vn iv il : String) (m : Metric),
      updateMetric pf (initQuery il0 q) conn res vn iv il = .ok m →
      ∃ lvs, resolveLabels res il iv (initQuery il0 q).labels = .ok lvs ∧
        m.labelValues = lvs ++ [conn.driver, conn.host, conn.database, conn.user, vn] ∧
        m.labelValues.length = (initQuery il0 q).labels.length + 5 ∧
        ∀ ls, (initQuery il0 q).desc = some ls → m.labelValues.length = ls.length) := by
  have hdesc0 : (initQuery il0 q).desc =
      some ((initQuery il0 q).labels ++ ["driver", "host", "database", "user", "col"]) := by
    simp [initQuery]
  refine ⟨hdesc0, ?_, ?_⟩
  · intro ls hls
    rw [hdesc0] at hls
    cases hls
    simp
  · intro pf conn res vn iv il m hok
    obtain ⟨lvs, descLs, hres, hd, hlv, hlen, -⟩ :=
      updateMetric_ok_shape pf (initQuery il0 q) conn res vn iv il m hok
    have hlvs := resolveLabels_length res il iv (initQuery il0 q).labels lvs hres
    refine ⟨lvs, hres, hlv, ?_, ?_⟩
    · rw [hlv]
      simp [hlvs]
    · intro ls hls
      rw [hdesc0] at hls
      cases hls
      rw [hlv]
      simp [hlvs]

/-- Witness for C3: a concrete row yields a sample whose label values are the
declared column values followed by driver, host, database, user, col, with
length 1 + 5 matching the descriptor. -/
theorem c3_descriptor_label_order_witness :
    ∃ lvs, resolveLabels [("count", SqlValue.vInt 1), ("l1", SqlValue.vString "a")] "" ""
        (initQuery "" q0).labels = .ok lvs ∧
      (⟨((1 : Int) : ℚ), ["a", "postgres", "h", "d", "u", "count"], none⟩ : Metric).labelValues
        = lvs ++ [conn0.driver, conn0.host, conn0.database, conn0.user, "count"] ∧
      (⟨((1 : Int) : ℚ), ["a", "postgres", "h", "d", "u", "count"], none⟩ : Metric).labelValues.length
        = (initQuery "" q0).labels.length + 5 ∧
      ∀ ls, (initQuery "" q0).desc = some ls →
        (⟨((1 : Int) : ℚ), ["a", "postgres", "h", "d", "u", "count"], none⟩ : Metric).labelValues.length
          = ls.length :=
  (c3_descriptor_label_order "" q0).2.2 pf0 conn0
    [("count", SqlValue.vInt 1), ("l1", SqlValue.vString "a")] "count" "" ""
    ⟨((1 : Int) : ℚ), ["a", "postgres", "h", "d", "u", "count"], none⟩ rfl

theorem run_exec (pf : String → Option ℚ)
    (db : String → Except String (List (Except String Row))) (q : Query) (conn : Conn)
    (s : MState) (hdesc : q.desc.isNone = false) (hq : ¬ q.query = "")
    (hh : conn.hasHandle = true) : (q.run pf db conn s).2.2 = [q.query] := by
  unfold Query.run
  rw [if_neg (by simp [hdesc]), if_neg (by simpa using hq), if_neg (by simp [hh])]
  rcases hdb : db q.query with e | rows
  · rfl
  dsimp only
  split_ifs <;> rfl

theorem iterLoop_exec_all_ok (pf : String → Option ℚ)
    (db : String → Except String (List (Except String Row))) (q : Query) (conn : Conn)
    (ph il : String) :
    ∀ (l : List String) (s : MState) (ms : List Metric) (u : Nat) (ex : List String),
      (∀ iv ∈ l, exIsOk (db (q.replaceIterator ph iv)) = true) →
      (iterLoop pf db q conn ph il l s ms u ex).2.2
        = ex ++ l.map (fun iv => q.replaceIterator ph iv) := by
  intro l
  induction l with
  | nil =>
    intro s ms u ex hok
    simp [iterLoop]
  | cons iv rest ih =>
    intro s ms u ex hok
    have hiv := hok iv (List.mem_cons_self _ _)
    unfold iterLoop
    dsimp only
    rcases hdb : db (q.replaceIterator ph iv) with e | rows
    · rw [hdb] at hiv
      simp [exIsOk] at hiv
    rw [ih _ _ _ _ (fun x hx => hok x (List.mem_cons_of_mem _ hx))]
    simp

theorem runIterator_exec (pf : String → Option ℚ)
    (db : String → Except String (List (Except String Row))) (q : Query) (conn : Conn)
    (ph : String) (ivs : List String) (il : String) (s : MState)
    (hdesc : q.desc.isNone = false) (hq : ¬ q.query = "") (hh : conn.hasHandle = true)
    (hok : ∀ iv ∈ ivs, exIsOk (db (q.replaceIterator ph iv)) = true) :
    (q.runIterator pf db conn ph ivs il s).2.2
      = ivs.map (fun iv => q.replaceIterator ph iv) := by
  unfold Query.runIterator
  rw [if_neg (by simp [hdesc]), if_neg (by simpa using hq), if_neg (by simp [hh])]
  have hex := iterLoop_exec_all_ok pf db q conn ph il ivs
    { s with queries := bump s.queries (qkey q) } [] 0 [] hok
  rcases hloop : iterLoop pf db q conn ph il ivs
      { s with queries := bump s.queries (qkey q) } [] 0 [] with ⟨s1, r, ex⟩
  rw [hloop] at hex
  simp only [List.nil_append] at hex
  rcases r with e | ⟨ms, u⟩
  · exact hex
  · dsimp only
    split_ifs <;> exact hex

/-- C7: through the per-query dispatch of `runOnceConnection`, a query runs
once per iterator value with every occurrence of the placeholder token
substituted (`ReplaceIterator`) exactly when the iterator value buffer is
set and the query contains the placeholder as decided by `HasIterator`; a
query not containing the placeholder runs once, unchanged; and when a
declared label equals the iterator label and the iterator value is
non-empty, that label position of the sample carries the iterator value. -/
theorem c7_iterator_expansion (pf : String → Option ℚ)
    (db : String → Except String (List (Except String Row))) (q : Query) (conn : Conn)
    (ivs : Option (List String)) (ph il : String) (s : MState)
    (hdesc : q.desc.isNone = false) (hq : ¬ q.query = "") (hh : conn.hasHandle = true) :
    (∀ l, ivs = some l → q.hasIterator ph = true →
      (∀ iv ∈ l, exIsOk (db (q.replaceIterator ph iv)) = true) →
      (runQueryOnConnection pf db q conn ivs ph il s).2.2
        = l.map (fun iv => q.replaceIterator ph iv)) ∧
    ((ivs = none ∨ q.hasIterator ph = false) →
      (runQueryOnConnection pf db q conn ivs ph il s).2.2 = [q.query]) ∧
    (∀ (res : Row) (vn iv : String) (m : Metric) (i : Nat) (hi : i < q.labels.length),
      q.labels[i] = il → ¬ iv = "" →
      updateMetric pf q conn res vn iv il = .ok m →
      m.labelValues[i]? = some iv) := by
  refine ⟨?_, ?_, ?_⟩
  · intro l hl hit hok
    subst hl
    unfold runQueryOnConnection
    rw [if_pos (by simp [hit])]
    simpa using runIterator_exec pf db q conn ph l il s hdesc hq hh hok
  · intro h
    unfold runQueryOnConnection
    rw [if_neg (by rcases h with h | h <;> simp [h])]
    exact run_exec pf db q conn s hdesc hq hh
  · intro res vn iv m i hi hlab hiv hok
    obtain ⟨lvs, descLs, hres, -, hlv, -, -⟩ :=
      updateMetric_ok_shape pf q conn res vn iv il m hok
    have hlvs := resolveLabels_length res il iv q.labels lvs hres
    obtain ⟨v, hv, hrl⟩ := resolveLabels_get res il iv q.labels lvs hres i (q.labels[i])
      (List.getElem?_eq_getElem hi)
    rw [hlab] at hrl
    unfold resolveLabel at hrl
    rw [if_pos ⟨rfl, hiv⟩] at hrl
    cases hrl
    rw [hlv]
    rw [List.getElem?_append, if_pos (by omega)]
    exact hv

/-- Witness for C7: the dispatch runs the substituted query once per
iterator value. -/
theorem c7_iterator_expansion_witness :
    (runQueryOnConnection pf0 dbEmpty0 qIter conn0 (some ["a", "b"]) "K" "k" mstate0).2.2
      = ["a", "b"].map (fun iv => qIter.replaceIterator "K" iv) :=
  (c7_iterator_expansion pf0 dbEmpty0 qIter conn0 (some ["a", "b"]) "K" "k" mstate0
    rfl (by decide) rfl).1 ["a", "b"] rfl (by decide) (fun iv _ => rfl)

theorem listPfx_append_self : ∀ (p rest : List Char), listPfx p (p ++ rest) = true := by
  intro p
  induction p with
  | nil => intro rest; rfl
  | cons a as ih =>
    intro rest
    simp [listPfx, ih]

theorem goTrimPfx_append (p t : String) : goTrimPfx (p ++ t) p = t := by
  unfold goTrimPfx goHasPfx
  rw [String.data_append]
  rw [if_pos (listPfx_append_self p.data t.data)]
  rw [List.drop_left]

theorem listPfx_cons_ne (a b : Char) (as bs : List Char) (h : (a == b) = false) :
    listPfx (a :: as) (b :: bs) = false := by
  simp [listPfx, h]

theorem ch_norm_dsn (c : Conn) (x : String)
    (hd : c.driver = "clickhouse+tcp" ∨ c.driver = "clickhouse+http" ∨
      c.driver = "clickhouse+https")
    (hu : c.url = "clickhouse+" ++ x) :
    (connectClickHouseNormalize c).dsn = x ∧
    (connectClickHouseNormalize c).driver = "clickhouse" := by
  unfold connectClickHouseNormalize
  rw [if_pos hd]
  dsimp only
  rw [hu]
  exact ⟨goTrimPfx_append _ _, rfl⟩

/-- C2: for a clickhouse+https, clickhouse+http or clickhouse+tcp connection
record, a failed connect attempt leaves the record's driver and url fields
unchanged (normalization is computed into locals of `connectClickHouse`), so
a second attempt computes the same effective DSN as the first; the effective
DSN is the url with the `clickhouse+` tag stripped, it never starts with
`tcp://` for the https/http variants, and it is never the doubly wrapped
`tcp://<original url>` that a mutated record would produce on retry. -/
theorem c2_clickhouse_normalization_idempotent (c : Conn) (r : String)
    (h : (c.driver = "clickhouse+https" ∧ c.url = "clickhouse+https://" ++ r) ∨
         (c.driver = "clickhouse+http" ∧ c.url = "clickhouse+http://" ++ r) ∨
         (c.driver = "clickhouse+tcp" ∧ c.url = "clickhouse+tcp://" ++ r)) :
    (connectClickHouseAttempt c true).1.driver = c.driver ∧
    (connectClickHouseAttempt c true).1.url = c.url ∧
    connectClickHouseNormalize (connectClickHouseAttempt c true).1
      = connectClickHouseNormalize c ∧
    goContains (connectClickHouseAttempt c true).1.driver "clickhouse" = true ∧
    (connectClickHouseNormalize c).driver = "clickhouse" ∧
    (connectClickHouseNormalize c).dsn = goTrimPfx c.url "clickhouse+" ∧
    ((c.driver = "clickhouse+https" ∨ c.driver = "clickhouse+http") →
      goHasPfx (connectClickHouseNormalize (connectClickHouseAttempt c true).1).dsn "tcp://"
        = false) ∧
    (connectClickHouseNormalize (connectClickHouseAttempt c true).1).dsn
      ≠ "tcp://" ++ c.url := by
  have hd3 : c.driver = "clickhouse+tcp" ∨ c.driver = "clickhouse+http" ∨
      c.driver = "clickhouse+https" := by
    rcases h with ⟨hd, -⟩ | ⟨hd, -⟩ | ⟨hd, -⟩
    · exact Or.inr (Or.inr hd)
    · exact Or.inr (Or.inl hd)
    · exact Or.inl hd
  refine ⟨rfl, rfl, rfl, ?_, ?_, ?_, ?_, ?_⟩
  · rcases h with ⟨hd, -⟩ | ⟨hd, -⟩ | ⟨hd, -⟩ <;>
      · show goContains c.driver "clickhouse" = true
        rw [hd]
        decide
  · rcases h with ⟨hd, hu⟩ | ⟨hd, hu⟩ | ⟨hd, hu⟩
    · exact (ch_norm_dsn c ("https://" ++ r) hd3
        (by rw [hu, ← String.append_assoc]; congr 1)).2
    · exact (ch_norm_dsn c ("http://" ++ r) hd3
        (by rw [hu, ← String.append_assoc]; congr 1)).2
    · exact (ch_norm_dsn c ("tcp://" ++ r) hd3
        (by rw [hu, ← String.append_assoc]; congr 1)).2
  · unfold connectClickHouseNormalize
    rw [if_pos hd3]
  · intro hcase
    show goHasPfx (connectClickHouseNormalize c).dsn "tcp://" = false
    rcases h with ⟨hd, hu⟩ | ⟨hd, hu⟩ | ⟨hd, hu⟩
    · rw [(ch_norm_dsn c ("https://" ++ r) hd3 (by rw [hu, ← String.append_assoc]; congr 1)).1]
      unfold goHasPfx
      rw [String.data_append]
      rw [show ("tcp://" : String).data = 't' :: "cp://".data from by decide,
          show ("https://" : String).data = 'h' :: "ttps://".data from by decide,
          List.cons_append]
      exact listPfx_cons_ne _ _ _ _ (by decide)
    · rw [(ch_norm_dsn c ("http://" ++ r) hd3 (by rw [hu, ← String.append_assoc]; congr 1)).1]
      unfold goHasPfx
      rw [String.data_append]
      rw [show ("tcp://" : String).data = 't' :: "cp://".data from by decide,
          show ("http://" : String).data = 'h' :: "ttp://".data from by decide,
          List.cons_append]
      exact listPfx_cons_ne _ _ _ _ (by decide)
    · rw [hd] at hcase
      rcases hcase with hc | hc <;> exact absurd hc (by decide)
  · show (connectClickHouseNormalize c).dsn ≠ "tcp://" ++ c.url
    rcases h with ⟨hd, hu⟩ | ⟨hd, hu⟩ | ⟨hd, hu⟩
    · rw [(ch_norm_dsn c ("https://" ++ r) hd3 (by rw [hu, ← String.append_assoc]; congr 1)).1, hu]
      intro heq
      have hlen := congrArg String.length heq
      rw [String.length_append, String.length_append, String.length_append] at hlen
      rw [show ("https://" : String).length = 8 from rfl,
          show ("tcp://" : String).length = 6 from rfl,
          show ("clickhouse+https://" : String).length = 19 from rfl] at hlen
      omega
    · rw [(ch_norm_dsn c ("http://" ++ r) hd3 (by rw [hu, ← String.append_assoc]; congr 1)).1, hu]
      intro heq
      have hlen := congrArg String.length heq
      rw [String.length_append, String.length_append, String.length_append] at hlen
      rw [show ("http://" : String).length = 7 from rfl,
          show ("tcp://" : String).length = 6 from rfl,
          show ("clickhouse+http://" : String).length = 18 from rfl] at hlen
      omega
    · rw [(ch_norm_dsn c ("tcp://" ++ r) hd3 (by rw [hu, ← String.append_assoc]; congr 1)).1, hu]
      intro heq
      have hlen := congrArg String.length heq
      rw [String.length_append, String.length_append, String.length_append] at hlen
      rw [show ("tcp://" : String).length = 6 from rfl,
          show ("clickhouse+tcp://" : String).length = 17 from rfl] at hlen
      omega

/-- Witness for C2: a concrete clickhouse+https record keeps its fields
across a failed attempt and normalizes to the https DSN, not a tcp-wrapped
one. -/
theorem c2_clickhouse_normalization_idempotent_witness :
    (connectClickHouseAttempt chConn0 true).1.driver = chConn0.driver ∧
    (connectClickHouseAttempt chConn0 true).1.url = chConn0.url ∧
    connectClickHouseNormalize (connectClickHouseAttempt chConn0 true).1
      = connectClickHouseNormalize chConn0 ∧
    goContains (connectClickHouseAttempt chConn0 true).1.driver "clickhouse" = true ∧
    (connectClickHouseNormalize chConn0).driver = "clickhouse" ∧
    (connectClickHouseNormalize chConn0).dsn = goTrimPfx chConn0.url "clickhouse+" ∧
    ((chConn0.driver = "clickhouse+https" ∨ chConn0.driver = "clickhouse+http") →
      goHasPfx (connectClickHouseNormalize (connectClickHouseAttempt chConn0 true).1).dsn
        "tcp://" = false) ∧
    (connectClickHouseNormalize (connectClickHouseAttempt chConn0 true).1).dsn
      ≠ "tcp://" ++ chConn0.url :=
  c2_clickhouse_normalization_idempotent chConn0 "host:9000/db"
    (Or.inl ⟨rfl, by decide⟩)

theorem bump_le_self {α : Type} [DecidableEq α] (f : α → Nat) (k0 k : α) :
    f k ≤ bump f k0 k := by
  unfold bump
  split <;> omega

theorem bump_mono {α : Type} [DecidableEq α] (f g : α → Nat) (k0 k : α) (h : f k ≤ g k) :
    bump f k0 k ≤ bump g k0 k := by
  unfold bump
  split <;> omega

theorem bump_ne {α : Type} [DecidableEq α] (f : α → Nat) (k0 k : α) (h : k ≠ k0) :
    bump f k0 k = f k := by
  unfold bump
  rw [if_neg h]

theorem run_queries_eq (pf : String → Option ℚ)
    (db : String → Except String (List (Except String Row))) (q : Query) (conn : Conn)
    (s : MState) : (q.run pf db conn s).1.queries = bump s.queries (qkey q) := by
  unfold Query.run
  split
  · rfl
  split
  · rfl
  split
  · rfl
  rcases hdb : db q.query with e | rows
  · rfl
  dsimp only
  split_ifs <;>
    · show (List.foldl (scanRow pf q conn "" "") _ rows).1.queries = _
      rw [foldl_scanRow_queries]

theorem run_failures_le (pf : String → Option ℚ)
    (db : String → Except String (List (Except String Row))) (q : Query) (conn : Conn)
    (s : MState) (k : String × String) :
    (q.run pf db conn s).1.failures k ≤ bump s.failures (qkey q) k := by
  unfold Query.run
  split
  · exact Nat.le_refl _
  split
  · exact Nat.le_refl _
  split
  · exact Nat.le_refl _
  rcases hdb : db q.query with e | rows
  · exact Nat.le_refl _
  dsimp only
  split_ifs
  · show (List.foldl (scanRow pf q conn "" "") _ rows).1.failures k ≤ _
    rw [foldl_scanRow_failures]
    exact bump_le_self _ _ _
  · show bump (List.foldl (scanRow pf q conn "" "") _ rows).1.failures (qkey q) k ≤ _
    rw [foldl_scanRow_failures]
  · show (List.foldl (scanRow pf q conn "" "") _ rows).1.failures k ≤ _
    rw [foldl_scanRow_failures]
    exact bump_le_self _ _ _

theorem iterLoop_queries_eq (pf : String → Option ℚ)
    (db : String → Except String (List (Except String Row))) (q : Query) (conn : Conn)
    (ph il : String) (l : List String) :
    ∀ (s : MState) (ms : List Metric) (u : Nat) (ex : List String),
      (iterLoop pf db q conn ph il l s ms u ex).1.queries = s.queries := by
  induction l with
  | nil => intro s ms u ex; rfl
  | cons iv rest ih =>
    intro s ms u ex
    unfold iterLoop
    dsimp only
    rcases hdb : db (q.replaceIterator ph iv) with e | rows
    · rfl
    rw [ih]
    rw [foldl_scanRow_queries]

theorem iterLoop_failures_le (pf : String → Option ℚ)
    (db : String → Except String (List (Except String Row))) (q : Query) (conn : Conn)
    (ph il : String) (l : List String) (k : String × String) :
    ∀ (s : MState) (ms : List Metric) (u : Nat) (ex : List String),
      (iterLoop pf db q conn ph il l s ms u ex).1.failures k
        ≤ bump s.failures (qkey q) k := by
  induction l with
  | nil => intro s ms u ex; exact bump_le_self _ _ _
  | cons iv rest ih =>
    intro s ms u ex
    unfold iterLoop
    dsimp only
    rcases hdb : db (q.replaceIterator ph iv) with e | rows
    · exact Nat.le_refl _
    refine Nat.le_trans (ih _ _ _ _) ?_
    rw [foldl_scanRow_failures]

theorem runIterator_queries_eq (pf : String → Option ℚ)
    (db : String → Except String (List (Except String Row))) (q : Query) (conn : Conn)
    (ph : String) (ivs : List String) (il : String) (s : MState) :
    (q.runIterator pf db conn ph ivs il s).1.queries = bump s.queries (qkey q) := by
  unfold Query.runIterator
  split
  · rfl
  split
  · rfl
  split
  · rfl
  dsimp only
  rcases hloop : iterLoop pf db q conn ph il ivs
      { s with queries := bump s.queries (qkey q) } [] 0 [] with ⟨s1, rr, ex⟩
  have hq := iterLoop_queries_eq pf db q conn ph il ivs
    { s with queries := bump s.queries (qkey q) } [] 0 []
  rw [hloop] at hq
  rcases rr with e | ⟨ms, u⟩
  · exact hq
  · dsimp only
    split_ifs <;> exact hq

theorem runIterator_failures_le (pf : String → Option ℚ)
    (db : String → Except String (List (Except String Row))) (q : Query) (conn : Conn)
    (ph : String) (ivs : List String) (il : String) (s : MState) (k : String × String) :
    (q.runIterator pf db conn ph ivs il s).1.failures k ≤ bump s.failures (qkey q) k := by
  unfold Query.runIterator
  split
  · exact Nat.le_refl _
  split
  · exact Nat.le_refl _
  split
  · exact Nat.le_refl _
  dsimp only
  rcases hloop : iterLoop pf db q conn ph il ivs
      { s with queries := bump s.queries (qkey q) } [] 0 [] with ⟨s1, rr, ex⟩
  have hf := iterLoop_failures_le pf db q conn ph il ivs k
    { s with queries := bump s.queries (qkey q) } [] 0 []
  rw [hloop] at hf
  rcases rr with e | ⟨ms, u⟩
  · exact hf
  · dsimp only
    split_ifs <;> exact hf

theorem markFailed_queries (qs : List Query) (conn : Conn) :
    ∀ s : MState, (markFailed qs conn s).queries = s.queries := by
  induction qs with
  | nil => intro s; rfl
  | cons q qs ih =>
    intro s
    unfold markFailed
    rw [List.foldl_cons]
    exact ih _

theorem markFailed_failures (qs : List Query) (conn : Conn) :
    ∀ s : MState, (markFailed qs conn s).failures = s.failures := by
  induction qs with
  | nil => intro s; rfl
  | cons q qs ih =>
    intro s
    unfold markFailed
    rw [List.foldl_cons]
    exact ih _

theorem connectFailStep_queries (j : String) (qs : List Query) (conn : Conn) (s : MState) :
    (connectFailStep j qs conn s).queries = s.queries := by
  unfold connectFailStep
  dsimp only
  exact markFailed_queries qs conn s

theorem connectFailStep_failures (j : String) (qs : List Query) (conn : Conn) (s : MState) :
    (connectFailStep j qs conn s).failures = bump s.failures (j, "") := by
  unfold connectFailStep
  dsimp only
  rw [markFailed_failures]

theorem stepEvent_preserves (s : MState) (e : Event) (hinv : CounterInv s) :
    CounterInv (stepEvent s e) := by
  intro k hk
  have hbase := hinv k hk
  cases e with
  | runQ pf db q conn ivs ph il =>
    show (runQueryOnConnection pf db q conn ivs ph il s).1.failures k
      ≤ (runQueryOnConnection pf db q conn ivs ph il s).1.queries k
    unfold runQueryOnConnection
    split
    · rw [runIterator_queries_eq]
      exact Nat.le_trans (runIterator_failures_le pf db q conn ph _ il s k)
        (bump_mono _ _ _ _ hbase)
    · rw [run_queries_eq]
      exact Nat.le_trans (run_failures_le pf db q conn s k)
        (bump_mono _ _ _ _ hbase)
  | connFail j qs c =>
    show (connectFailStep j qs c s).failures k ≤ (connectFailStep j qs c s).queries k
    rw [connectFailStep_queries, connectFailStep_failures]
    rw [bump_ne _ _ _ (fun he => hk (by rw [he]))]
    exact hbase

theorem execEvents_preserves (es : List Event) :
    ∀ s : MState, CounterInv s → CounterInv (execEvents s es) := by
  induction es with
  | nil => intro s h; exact h
  | cons e es ih =>
    intro s h
    exact ih _ (stepEvent_preserves s e h)

/-- Counterexample for C6: a single connection failure increments the
query-failure counter for the pair (job, "") with no preceding attempt
increment for that pair, so queries_total is strictly below
failures_total there. -/
theorem c6_counterexample :
    (execEvents mstate0 [Event.connFail "j" [] conn0]).queries ("j", "")
      < (execEvents mstate0 [Event.connFail "j" [] conn0]).failures ("j", "") := by
  decide

/-- C6 amended: over any process lifetime (any sequence of query executions
and connection failures starting from zeroed counters), the attempt counter
dominates the failure counter for every (job, query) label pair whose query
name is non-empty; the connection-failure path only ever increments the
failure counter with empty query name. -/
theorem c6_counters_dominate (es : List Event) (k : String × String) (hk : k.2 ≠ "") :
    (execEvents mstate0 es).failures k ≤ (execEvents mstate0 es).queries k :=
  execEvents_preserves es mstate0 (fun _ _ => Nat.le_refl 0) k hk

/-- Witness for C6 amended: after one failing query execution the pair
(j, q) has one attempt and at most one failure. -/
theorem c6_counters_dominate_witness :
    (execEvents mstate0 [Event.runQ pf0 dbErr0 q0 conn0 none "" ""]).failures ("j", "q")
      ≤ (execEvents mstate0 [Event.runQ pf0 dbErr0 q0 conn0 none "" ""]).queries ("j", "q") :=
  c6_counters_dominate [Event.runQ pf0 dbErr0 q0 conn0 none "" ""] ("j", "q") (by decide)
